import Mathlib

/-!
Verification of the Game of Life engine in `src/lib.rs` of `gol-with-display`.

The engine consists of `Point` (a 2D integer coordinate), the Moore
neighborhood enumeration `neighbors`, and `Grid`, which stores the alive
cells as a `HashMap<Point, u64>` from cell to birth generation together
with a `u64` generation counter.

Modelling choices, kept uniform throughout:
* `i64` coordinates are modelled as `Int` and `u64`/`usize` counters as
  `Nat` (the spec treats them as mathematical integers; no claim is about
  64-bit wrap-around).
* `HashMap<Point, u64>` is modelled as an association list `CellMap`.
  Maps produced by the `HashMap` API never contain a duplicate key; this
  is the well-formedness predicate `Grid.WF` below.  `HashMap::get` is
  `getCell`, `insert` is `insertCell`, `remove` is `removeCell`, and
  `entry(k).or_insert(v)` is `orInsertCell`.
* The iteration order of a `HashMap` is arbitrary; the list model fixes
  one order, and order-insensitivity is proved explicitly (the lookup
  function of a ticked grid depends only on the lookup function of the
  input grid, `tick_congr` below).
* `Grid::random` samples its points from a thread RNG; the draws are
  passed in as an explicit oracle list.
-/

/-- `struct Point { x: i64, y: i64 }`. -/
structure Point where
  x : Int
  y : Int
deriving DecidableEq, Repr

/-- `impl Add for Point`. -/
def Point.add (p other : Point) : Point :=
  { x := p.x + other.x, y := p.y + other.y }

/-- `impl Sub for Point`. -/
def Point.sub (p other : Point) : Point :=
  { x := p.x - other.x, y := p.y - other.y }

instance : Add Point :=
  ⟨Point.add⟩

instance : Sub Point :=
  ⟨Point.sub⟩

/-- `const NEIGHBORHOOD_OFFSETS: [Point; 8]`. -/
def NEIGHBORHOOD_OFFSETS : List Point :=
  [{ x := -1, y := 1 }, { x := 0, y := 1 }, { x := 1, y := 1 },
   { x := -1, y := 0 }, { x := 1, y := 0 },
   { x := -1, y := -1 }, { x := 0, y := -1 }, { x := 1, y := -1 }]

/-- `fn neighbors(point: Point) -> Vec<Point>`. -/
def neighbors (point : Point) : List Point :=
  NEIGHBORHOOD_OFFSETS.map (fun offset => point + offset)

/-- Model of `HashMap<Point, u64>` as an association list. -/
abbrev CellMap := List (Point × Nat)

/-- `HashMap::get` (and, via `Option.isSome`, `HashMap::contains_key`). -/
def getCell : CellMap → Point → Option Nat
  | [], _ => none
  | e :: rest, k => if e.1 = k then some e.2 else getCell rest k

/-- `HashMap::insert`: replaces the binding if the key is present,
otherwise adds a new one. -/
def insertCell : CellMap → Point → Nat → CellMap
  | [], k, v => [(k, v)]
  | e :: rest, k, v => if e.1 = k then (k, v) :: rest else e :: insertCell rest k v

/-- `HashMap::remove`: deletes the binding for the key, if any. -/
def removeCell : CellMap → Point → CellMap
  | [], _ => []
  | e :: rest, k => if e.1 = k then rest else e :: removeCell rest k

/-- `HashMap::entry(k).or_insert(v)`: inserts `v` only if `k` is absent. -/
def orInsertCell (m : CellMap) (k : Point) (v : Nat) : CellMap :=
  match getCell m k with
  | some _ => m
  | none => m ++ [(k, v)]

/-- The keys of a cell map. -/
def cmKeys (m : CellMap) : List Point :=
  m.map Prod.fst

/-- `struct Grid { cells: HashMap<Point, u64>, generation: u64 }`. -/
structure Grid where
  cells : CellMap
  generation : Nat
deriving DecidableEq, Repr

/-- Well-formedness of the `HashMap` model: no duplicate keys.  Every map
built through the `HashMap` API has this property. -/
abbrev Grid.WF (g : Grid) : Prop :=
  (cmKeys g.cells).Nodup

/-- `Grid::empty`. -/
def Grid.empty : Grid :=
  { cells := [], generation := 0 }

/-- `Grid::with_points`: every input point inserted with birth generation 0. -/
def Grid.with_points (points : List Point) : Grid :=
  { cells := points.foldl (fun cells point => insertCell cells point 0) [],
    generation := 0 }

/-- `Grid::add_point`: `self.cells.entry(point).or_insert(self.generation)`. -/
def Grid.add_point (g : Grid) (point : Point) : Grid :=
  { g with cells := orInsertCell g.cells point g.generation }

/-- `Grid::remove_point`: `self.cells.remove(point)`. -/
def Grid.remove_point (g : Grid) (point : Point) : Grid :=
  { g with cells := removeCell g.cells point }

/-- `Grid::age_of_point`: `self.cells.get(point).map(|birth| self.generation - birth)`. -/
def Grid.age_of_point (g : Grid) (point : Point) : Option Nat :=
  (getCell g.cells point).map (fun birth => g.generation - birth)

/-- `Grid::count_neighbors`: fold over the 8 neighbors, adding 1 for each
key of the alive map. -/
def Grid.count_neighbors (g : Grid) (point : Point) : Nat :=
  (neighbors point).foldl
    (fun acc point => if (getCell g.cells point).isSome then acc + 1 else acc) 0

/-- `Grid::dead_candidates`: all neighbors of alive cells that are not
themselves alive (with duplicates, as in the source). -/
def Grid.dead_candidates (g : Grid) : List Point :=
  (g.cells.flatMap (fun e => neighbors e.1)).filter
    (fun cell => !(getCell g.cells cell).isSome)

/-- The body of the first loop of `Grid::tick` (survival pass):
`let count = self.count_neighbors(cell); if count > 1 && count < 4 { next_generation.insert(*cell, *generation); }`. -/
def survStep (g : Grid) (next : CellMap) (e : Point × Nat) : CellMap :=
  if 1 < g.count_neighbors e.1 ∧ g.count_neighbors e.1 < 4 then insertCell next e.1 e.2
  else next

/-- The first loop of `Grid::tick`: fold the survival body over the alive
cells, starting from the fresh empty `next_generation` map. -/
def tickSurvivors (g : Grid) : CellMap :=
  g.cells.foldl (survStep g) []

/-- The body of the second loop of `Grid::tick` (birth pass):
`let count = self.count_neighbors(&cell); if count == 3 { next_generation.insert(cell, self.generation); }`,
where `self.generation` has already been incremented to the pre-tick
generation plus 1. -/
def birthStep (g : Grid) (next : CellMap) (cell : Point) : CellMap :=
  if g.count_neighbors cell = 3 then insertCell next cell (g.generation + 1)
  else next

/-- The second loop of `Grid::tick`: fold the birth body over the dead
candidates, continuing from the survivors map. -/
def tickBirths (g : Grid) (init : CellMap) : CellMap :=
  g.dead_candidates.foldl (birthStep g) init

/-- `Grid::tick`: increment the generation, run the survival pass and the
birth pass against the pre-tick snapshot, then replace the cell map. -/
def Grid.tick (g : Grid) : Grid :=
  { cells := tickBirths g (tickSurvivors g), generation := g.generation + 1 }

/-- `desired_count` of `Grid::random`:
`(bottom_right.x - top_left.x) * (bottom_right.y - top_left.y) * 8 / 10`
with `i64` (truncating) division. -/
def desired_count (top_left bottom_right : Point) : Int :=
  Int.tdiv ((bottom_right.x - top_left.x) * (bottom_right.y - top_left.y) * 8) 10

/-- `Grid::random`, with the RNG outputs supplied as the oracle list
`draws`: the loop body calls `add_point` on each sampled point, starting
from `Grid::empty`.  The length and range constraints on `draws` (the loop
runs `desired_count` times; each coordinate is sampled from the half-open
rectangle) appear as hypotheses of the theorems about it. -/
def Grid.random (draws : List Point) : Grid :=
  draws.foldl (fun grid point => grid.add_point point) Grid.empty

/-- Grid states reachable from the constructors via the mutating API. -/
inductive Reachable : Grid → Prop
  | empty : Reachable Grid.empty
  | with_points (points : List Point) : Reachable (Grid.with_points points)
  | random (draws : List Point) : Reachable (Grid.random draws)
  | tick {g : Grid} : Reachable g → Reachable g.tick
  | add_point {g : Grid} (point : Point) : Reachable g → Reachable (g.add_point point)
  | remove_point {g : Grid} (point : Point) : Reachable g → Reachable (g.remove_point point)

/-- The documented data-model invariant: every alive cell's birth
generation is at most the current generation. -/
abbrev BirthInvariant (g : Grid) : Prop :=
  ∀ e ∈ g.cells, e.2 ≤ g.generation

/-- Observational equality of grids: same generation counter and the same
birth generation (or absence) at every point.  This is equality of the
underlying `HashMap` contents, independent of iteration order. -/
def GridEquiv (g₁ g₂ : Grid) : Prop :=
  g₁.generation = g₂.generation ∧ ∀ p, getCell g₁.cells p = getCell g₂.cells p

/-! ### Basic lemmas about the `HashMap` model -/

@[simp]
theorem cmKeys_nil : cmKeys [] = [] :=
  rfl

@[simp]
theorem cmKeys_cons (e : Point × Nat) (m : CellMap) : cmKeys (e :: m) = e.1 :: cmKeys m :=
  rfl

theorem getCell_insertCell_self (m : CellMap) (k : Point) (v : Nat) :
    getCell (insertCell m k v) k = some v := by
  induction m with
  | nil => simp [insertCell, getCell]
  | cons e rest ih =>
    by_cases h : e.1 = k
    · simp [insertCell, h, getCell]
    · simp [insertCell, h, getCell, ih]

theorem getCell_insertCell_ne (m : CellMap) {k q : Point} (v : Nat) (h : q ≠ k) :
    getCell (insertCell m k v) q = getCell m q := by
  induction m with
  | nil => simp [insertCell, getCell, Ne.symm h]
  | cons e rest ih =>
    by_cases he : e.1 = k
    · simp [insertCell, he, getCell, Ne.symm h]
    · simp [insertCell, he, getCell, ih]

theorem mem_insertCell {m : CellMap} {k : Point} {v : Nat} {e : Point × Nat}
    (h : e ∈ insertCell m k v) : e = (k, v) ∨ e ∈ m := by
  induction m with
  | nil => simpa [insertCell] using h
  | cons a rest ih =>
    by_cases ha : a.1 = k
    · simp [insertCell, ha] at h
      rcases h with h | h
      · exact Or.inl h
      · exact Or.inr (List.mem_cons_of_mem a h)
    · simp [insertCell, ha] at h
      rcases h with h | h
      · exact Or.inr (by simp [h])
      · rcases ih h with h' | h'
        · exact Or.inl h'
        · exact Or.inr (List.mem_cons_of_mem a h')

theorem mem_cmKeys_insertCell {m : CellMap} {k q : Point} {v : Nat} :
    q ∈ cmKeys (insertCell m k v) ↔ q ∈ cmKeys m ∨ q = k := by
  induction m with
  | nil => simp [insertCell]
  | cons e rest ih =>
    by_cases he : e.1 = k
    · simp [insertCell, he]
      tauto
    · simp [insertCell, he, ih]
      tauto

theorem nodupKeys_insertCell {m : CellMap} (h : (cmKeys m).Nodup) (k : Point) (v : Nat) :
    (cmKeys (insertCell m k v)).Nodup := by
  induction m with
  | nil => simp [insertCell]
  | cons e rest ih =>
    simp only [cmKeys_cons, List.nodup_cons] at h
    obtain ⟨h1, h2⟩ := h
    by_cases he : e.1 = k
    · subst he
      simp [insertCell]
      exact ⟨h1, h2⟩
    · simp [insertCell, he, mem_cmKeys_insertCell]
      exact ⟨h1, ih h2⟩

theorem getCell_eq_none_iff {m : CellMap} {k : Point} :
    getCell m k = none ↔ k ∉ cmKeys m := by
  induction m with
  | nil => simp [getCell]
  | cons e rest ih =>
    by_cases he : e.1 = k
    · subst he
      simp [getCell]
    · simp [getCell, he, ih]
      intro _ hq
      exact he hq.symm

theorem isSome_getCell_iff {m : CellMap} {k : Point} :
    (getCell m k).isSome ↔ k ∈ cmKeys m := by
  rw [Option.isSome_iff_ne_none, ne_eq, getCell_eq_none_iff, not_not]

theorem getCell_mem {m : CellMap} {k : Point} {v : Nat} (h : getCell m k = some v) :
    (k, v) ∈ m := by
  induction m with
  | nil => simp [getCell] at h
  | cons e rest ih =>
    obtain ⟨a, b⟩ := e
    by_cases ha : a = k
    · simp [getCell, ha] at h
      simp [ha, h]
    · simp [getCell, ha] at h
      exact List.mem_cons_of_mem _ (ih h)

theorem isSome_getCell_of_mem {m : CellMap} {e : Point × Nat} (h : e ∈ m) :
    (getCell m e.1).isSome := by
  rw [isSome_getCell_iff]
  exact List.mem_map_of_mem Prod.fst h

theorem removeCell_sublist (m : CellMap) (k : Point) : (removeCell m k).Sublist m := by
  induction m with
  | nil => simp [removeCell]
  | cons e rest ih =>
    by_cases he : e.1 = k
    · simp [removeCell, he]
    · simpa [removeCell, he] using List.Sublist.cons₂ e ih

theorem removeCell_of_absent {m : CellMap} {k : Point} (h : getCell m k = none) :
    removeCell m k = m := by
  induction m with
  | nil => simp [removeCell]
  | cons e rest ih =>
    by_cases he : e.1 = k
    · simp [getCell, he] at h
    · simp [getCell, he] at h
      simp [removeCell, he, ih h]

theorem getCell_removeCell_self {m : CellMap} (h : (cmKeys m).Nodup) (k : Point) :
    getCell (removeCell m k) k = none := by
  induction m with
  | nil => simp [removeCell, getCell]
  | cons e rest ih =>
    simp at h
    by_cases he : e.1 = k
    · simp [removeCell, he, getCell_eq_none_iff]
      exact he ▸ h.1
    · simp [removeCell, he, getCell, ih h.2]

theorem nodupKeys_removeCell {m : CellMap} (h : (cmKeys m).Nodup) (k : Point) :
    (cmKeys (removeCell m k)).Nodup :=
  h.sublist ((removeCell_sublist m k).map Prod.fst)

theorem getCell_append_of_absent {m : CellMap} {k : Point} (h : getCell m k = none) (v : Nat) :
    getCell (m ++ [(k, v)]) k = some v := by
  induction m with
  | nil => simp [getCell]
  | cons e rest ih =>
    by_cases he : e.1 = k
    · simp [getCell, he] at h
    · simp [getCell, he] at h ⊢
      exact ih h

theorem mem_orInsertCell {m : CellMap} {k : Point} {v : Nat} {e : Point × Nat}
    (h : e ∈ orInsertCell m k v) : e ∈ m ∨ e = (k, v) := by
  unfold orInsertCell at h
  rcases hg : getCell m k with _ | b
  · rw [hg] at h
    simpa using h
  · rw [hg] at h
    exact Or.inl h

theorem nodupKeys_orInsertCell {m : CellMap} (h : (cmKeys m).Nodup) (k : Point) (v : Nat) :
    (cmKeys (orInsertCell m k v)).Nodup := by
  unfold orInsertCell
  rcases hg : getCell m k with _ | b
  · have hk : k ∉ cmKeys m := getCell_eq_none_iff.mp hg
    simp [cmKeys, List.nodup_append]
    exact ⟨by simpa [cmKeys] using h, by simpa [cmKeys] using hk⟩
  · exact h

theorem length_orInsertCell (m : CellMap) (k : Point) (v : Nat) :
    (orInsertCell m k v).length ≤ m.length + 1 := by
  unfold orInsertCell
  rcases getCell m k with _ | b
  · simp
  · simp

/-! ### Neighborhood lemmas -/

theorem point_eq_iff {a b : Point} : a = b ↔ a.x = b.x ∧ a.y = b.y := by
  cases a
  cases b
  simp

theorem point_add_def (p q : Point) : p + q = { x := p.x + q.x, y := p.y + q.y } :=
  rfl

theorem mem_neighbors_iff {a b : Point} :
    a ∈ neighbors b ↔
      ¬(a.x = b.x ∧ a.y = b.y) ∧ (a.x - b.x).natAbs ≤ 1 ∧ (a.y - b.y).natAbs ≤ 1 := by
  obtain ⟨ax, ay⟩ := a
  obtain ⟨bx, byy⟩ := b
  simp [neighbors, NEIGHBORHOOD_OFFSETS, point_add_def, point_eq_iff]
  omega

theorem mem_neighbors_comm {a b : Point} : a ∈ neighbors b ↔ b ∈ neighbors a := by
  rw [mem_neighbors_iff, mem_neighbors_iff]
  omega

/-! ### `count_neighbors` as a count over the neighborhood -/

theorem count_neighbors_eq_countP (g : Grid) (p : Point) :
    g.count_neighbors p =
      (neighbors p).countP (fun q => (getCell g.cells q).isSome) := by
  have key : ∀ (l : List Point) (acc : Nat),
      l.foldl (fun acc point => if (getCell g.cells point).isSome then acc + 1 else acc) acc =
        acc + l.countP (fun q => (getCell g.cells q).isSome) := by
    intro l
    induction l with
    | nil => intro acc; simp
    | cons c rest ih =>
      intro acc
      rw [List.foldl_cons]
      by_cases hc : (getCell g.cells c).isSome
      · rw [if_pos hc, ih, List.countP_cons]
        simp [hc]
        omega
      · rw [if_neg hc, ih, List.countP_cons]
        simp [hc]
  unfold Grid.count_neighbors
  rw [key]
  simp

/-! ### The `with_points` construction -/

theorem getCell_foldl_insert0 :
    ∀ (l : List Point) (init : CellMap) (k : Point),
      getCell (l.foldl (fun cells point => insertCell cells point 0) init) k =
        if k ∈ l then some 0 else getCell init k := by
  intro l
  induction l with
  | nil => intro init k; simp
  | cons c rest ih =>
    intro init k
    rw [List.foldl_cons, ih]
    by_cases hm : k ∈ rest
    · simp [hm]
    · by_cases hkc : k = c
      · subst hkc
        simp [hm, getCell_insertCell_self]
      · simp [hm, hkc, getCell_insertCell_ne init 0 hkc]

theorem nodupKeys_foldl_insert0 :
    ∀ (l : List Point) (init : CellMap), (cmKeys init).Nodup →
      (cmKeys (l.foldl (fun cells point => insertCell cells point 0) init)).Nodup := by
  intro l
  induction l with
  | nil => intro init h; exact h
  | cons c rest ih =>
    intro init h
    rw [List.foldl_cons]
    exact ih _ (nodupKeys_insertCell h c 0)

theorem mem_foldl_insert0 :
    ∀ (l : List Point) (init : CellMap) {e : Point × Nat},
      e ∈ l.foldl (fun cells point => insertCell cells point 0) init →
        e ∈ init ∨ e.2 = 0 := by
  intro l
  induction l with
  | nil => intro init e h; exact Or.inl h
  | cons c rest ih =>
    intro init e h
    rw [List.foldl_cons] at h
    rcases ih _ h with h' | h'
    · rcases mem_insertCell h' with h'' | h''
      · right
        simp [h'']
      · exact Or.inl h''
    · exact Or.inr h'

theorem getCell_with_points (l : List Point) (k : Point) :
    getCell (Grid.with_points l).cells k = if k ∈ l then some 0 else none := by
  show getCell (l.foldl (fun cells point => insertCell cells point 0) []) k = _
  rw [getCell_foldl_insert0]
  rfl

theorem with_points_WF (l : List Point) : (Grid.with_points l).WF :=
  nodupKeys_foldl_insert0 l [] (by simp)

theorem with_points_generation (l : List Point) : (Grid.with_points l).generation = 0 :=
  rfl

/-! ### The two passes of `tick` -/

theorem getCell_foldl_survStep (g : Grid) :
    ∀ (l : CellMap), (cmKeys l).Nodup →
      ∀ (init : CellMap) (k : Point),
        getCell (l.foldl (survStep g) init) k =
          match getCell l k with
          | some birth =>
              if 1 < g.count_neighbors k ∧ g.count_neighbors k < 4 then some birth
              else getCell init k
          | none => getCell init k := by
  intro l
  induction l with
  | nil => intro _ init k; simp [getCell]
  | cons e rest ih =>
    intro hnd init k
    simp only [cmKeys_cons, List.nodup_cons] at hnd
    obtain ⟨h1, h2⟩ := hnd
    rw [List.foldl_cons, ih h2]
    by_cases he : e.1 = k
    · subst he
      have hrest : getCell rest e.1 = none := getCell_eq_none_iff.mpr h1
      by_cases hc : 1 < g.count_neighbors e.1 ∧ g.count_neighbors e.1 < 4
      · simp [survStep, getCell, hrest, hc, getCell_insertCell_self]
      · simp [survStep, getCell, hrest, hc]
    · have hstep : getCell (survStep g init e) k = getCell init k := by
        unfold survStep
        by_cases hc : 1 < g.count_neighbors e.1 ∧ g.count_neighbors e.1 < 4
        · rw [if_pos hc]
          exact getCell_insertCell_ne init e.2 (fun hq => he hq.symm)
        · rw [if_neg hc]
      rw [hstep]
      simp [getCell, he]

theorem mem_foldl_survStep (g : Grid) :
    ∀ (l : CellMap) (init : CellMap) {e : Point × Nat},
      e ∈ l.foldl (survStep g) init → e ∈ init ∨ e ∈ l := by
  intro l
  induction l with
  | nil => intro init e h; exact Or.inl h
  | cons c rest ih =>
    intro init e h
    rw [List.foldl_cons] at h
    rcases ih _ h with h' | h'
    · unfold survStep at h'
      by_cases hc : 1 < g.count_neighbors c.1 ∧ g.count_neighbors c.1 < 4
      · rw [if_pos hc] at h'
        rcases mem_insertCell h' with h'' | h''
        · exact Or.inr (by simp [h''])
        · exact Or.inl h''
      · rw [if_neg hc] at h'
        exact Or.inl h'
    · exact Or.inr (List.mem_cons_of_mem c h')

theorem nodupKeys_foldl_survStep (g : Grid) :
    ∀ (l : CellMap) (init : CellMap), (cmKeys init).Nodup →
      (cmKeys (l.foldl (survStep g) init)).Nodup := by
  intro l
  induction l with
  | nil => intro init h; exact h
  | cons c rest ih =>
    intro init h
    rw [List.foldl_cons]
    refine ih _ ?_
    unfold survStep
    by_cases hc : 1 < g.count_neighbors c.1 ∧ g.count_neighbors c.1 < 4
    · rw [if_pos hc]
      exact nodupKeys_insertCell h c.1 c.2
    · rw [if_neg hc]
      exact h

theorem getCell_foldl_birthStep (g : Grid) :
    ∀ (l : List Point) (init : CellMap) (k : Point),
      getCell (l.foldl (birthStep g) init) k =
        if k ∈ l ∧ g.count_neighbors k = 3 then some (g.generation + 1)
        else getCell init k := by
  intro l
  induction l with
  | nil => intro init k; simp
  | cons c rest ih =>
    intro init k
    rw [List.foldl_cons, ih]
    by_cases hmem : k ∈ rest ∧ g.count_neighbors k = 3
    · simp [hmem.1, hmem.2]
    · by_cases hkc : k = c
      · subst hkc
        by_cases hcnt : g.count_neighbors k = 3
        · simp [hmem, birthStep, hcnt, getCell_insertCell_self]
        · simp [hmem, birthStep, hcnt]
      · have hstep : getCell (birthStep g init c) k = getCell init k := by
          unfold birthStep
          by_cases hc3 : g.count_neighbors c = 3
          · rw [if_pos hc3]
            exact getCell_insertCell_ne init _ hkc
          · rw [if_neg hc3]
        simp [hmem, hstep, hkc]

theorem mem_foldl_birthStep (g : Grid) :
    ∀ (l : List Point) (init : CellMap) {e : Point × Nat},
      e ∈ l.foldl (birthStep g) init →
        e ∈ init ∨ (e.1 ∈ l ∧ e.2 = g.generation + 1) := by
  intro l
  induction l with
  | nil => intro init e h; exact Or.inl h
  | cons c rest ih =>
    intro init e h
    rw [List.foldl_cons] at h
    rcases ih _ h with h' | h'
    · unfold birthStep at h'
      by_cases hc : g.count_neighbors c = 3
      · rw [if_pos hc] at h'
        rcases mem_insertCell h' with h'' | h''
        · right
          simp [h'']
        · exact Or.inl h''
      · rw [if_neg hc] at h'
        exact Or.inl h'
    · exact Or.inr ⟨List.mem_cons_of_mem c h'.1, h'.2⟩

theorem nodupKeys_foldl_birthStep (g : Grid) :
    ∀ (l : List Point) (init : CellMap), (cmKeys init).Nodup →
      (cmKeys (l.foldl (birthStep g) init)).Nodup := by
  intro l
  induction l with
  | nil => intro init h; exact h
  | cons c rest ih =>
    intro init h
    rw [List.foldl_cons]
    refine ih _ ?_
    unfold birthStep
    by_cases hc : g.count_neighbors c = 3
    · rw [if_pos hc]
      exact nodupKeys_insertCell h c (g.generation + 1)
    · rw [if_neg hc]
      exact h

/-! ### Dead candidates -/

theorem mem_dead_candidates {g : Grid} {k : Point} :
    k ∈ g.dead_candidates ↔
      (∃ p, (getCell g.cells p).isSome ∧ k ∈ neighbors p) ∧ getCell g.cells k = none := by
  unfold Grid.dead_candidates
  rw [List.mem_filter]
  constructor
  · rintro ⟨hmem, hdead⟩
    rw [List.mem_flatMap] at hmem
    obtain ⟨e, he, hk⟩ := hmem
    refine ⟨⟨e.1, isSome_getCell_of_mem he, hk⟩, ?_⟩
    simpa using hdead
  · rintro ⟨⟨p, hp, hk⟩, hdead⟩
    constructor
    · rw [List.mem_flatMap]
      obtain ⟨v, hv⟩ := Option.isSome_iff_exists.mp hp
      exact ⟨(p, v), getCell_mem hv, hk⟩
    · simp [hdead]

/-- A dead cell with at least one alive neighbor is a dead candidate. -/
theorem mem_dead_candidates_of_alive_neighbor {g : Grid} {k : Point}
    (hdead : getCell g.cells k = none) {p : Point} (hp : p ∈ neighbors k)
    (halive : (getCell g.cells p).isSome) : k ∈ g.dead_candidates :=
  mem_dead_candidates.mpr ⟨⟨p, halive, mem_neighbors_comm.mp hp⟩, hdead⟩

/-! ### The core `tick` lemma -/

theorem getCell_tick (g : Grid) (hwf : g.WF) (k : Point) :
    getCell g.tick.cells k =
      match getCell g.cells k with
      | some birth =>
          if 1 < g.count_neighbors k ∧ g.count_neighbors k < 4 then some birth else none
      | none =>
          if k ∈ g.dead_candidates ∧ g.count_neighbors k = 3 then some (g.generation + 1)
          else none := by
  show getCell (tickBirths g (tickSurvivors g)) k = _
  unfold tickBirths tickSurvivors
  rw [getCell_foldl_birthStep, getCell_foldl_survStep g g.cells hwf]
  cases hk : getCell g.cells k with
  | none => simp [getCell]
  | some birth =>
    have hnd : k ∉ g.dead_candidates := by
      intro hmem
      rw [(mem_dead_candidates.mp hmem).2] at hk
      exact Option.noConfusion hk
    simp [hnd, getCell]

theorem tick_WF (g : Grid) : g.tick.WF := by
  show (cmKeys (tickBirths g (tickSurvivors g))).Nodup
  unfold tickBirths tickSurvivors
  exact nodupKeys_foldl_birthStep g _ _ (nodupKeys_foldl_survStep g g.cells [] (by simp))

theorem tick_generation (g : Grid) : g.tick.generation = g.generation + 1 :=
  rfl

/-! ### Order-insensitivity of `tick` -/

theorem count_neighbors_congr {g₁ g₂ : Grid}
    (h : ∀ p, getCell g₁.cells p = getCell g₂.cells p) (p : Point) :
    g₁.count_neighbors p = g₂.count_neighbors p := by
  rw [count_neighbors_eq_countP, count_neighbors_eq_countP]
  apply List.countP_congr
  intro a _
  rw [h a]

theorem mem_dead_candidates_congr {g₁ g₂ : Grid}
    (h : ∀ p, getCell g₁.cells p = getCell g₂.cells p) (k : Point) :
    k ∈ g₁.dead_candidates ↔ k ∈ g₂.dead_candidates := by
  rw [mem_dead_candidates, mem_dead_candidates]
  constructor <;> rintro ⟨⟨p, hp, hk⟩, hd⟩
  · exact ⟨⟨p, by rw [← h p]; exact hp, hk⟩, by rw [← h k]; exact hd⟩
  · exact ⟨⟨p, by rw [h p]; exact hp, hk⟩, by rw [h k]; exact hd⟩

theorem tick_congr {g₁ g₂ : Grid} (h₁ : g₁.WF) (h₂ : g₂.WF) (h : GridEquiv g₁ g₂) :
    GridEquiv g₁.tick g₂.tick := by
  obtain ⟨hgen, hcells⟩ := h
  constructor
  · rw [tick_generation, tick_generation, hgen]
  · intro p
    rw [getCell_tick g₁ h₁ p, getCell_tick g₂ h₂ p, hcells p, hgen,
        count_neighbors_congr hcells p]
    simp only [mem_dead_candidates_congr hcells p]

theorem tickN_WF (g : Grid) (hwf : g.WF) (n : Nat) : (Grid.tick^[n] g).WF := by
  induction n with
  | zero => exact hwf
  | succ n ih =>
    rw [Function.iterate_succ_apply']
    exact tick_WF _

theorem tickN_congr {g₁ g₂ : Grid} (h₁ : g₁.WF) (h₂ : g₂.WF) (h : GridEquiv g₁ g₂)
    (n : Nat) : GridEquiv (Grid.tick^[n] g₁) (Grid.tick^[n] g₂) := by
  induction n with
  | zero => exact h
  | succ n ih =>
    rw [Function.iterate_succ_apply', Function.iterate_succ_apply']
    exact tick_congr (tickN_WF g₁ h₁ n) (tickN_WF g₂ h₂ n) ih

/-! ### Generation counting and the empty grid -/

theorem tickN_generation (g : Grid) (n : Nat) :
    (Grid.tick^[n] g).generation = g.generation + n := by
  induction n with
  | zero => simp
  | succ n ih =>
    rw [Function.iterate_succ_apply', tick_generation, ih]
    omega

theorem tick_cells_of_empty {g : Grid} (h : g.cells = []) : g.tick.cells = [] := by
  show tickBirths g (tickSurvivors g) = []
  unfold tickBirths tickSurvivors Grid.dead_candidates
  rw [h]
  rfl

theorem tickN_empty_cells (n : Nat) : (Grid.tick^[n] Grid.empty).cells = [] := by
  induction n with
  | zero => rfl
  | succ n ih =>
    rw [Function.iterate_succ_apply']
    exact tick_cells_of_empty ih

/-! ### Preservation of the birth-generation invariant -/

theorem birthInvariant_empty : BirthInvariant Grid.empty := by
  intro e he
  simp [Grid.empty] at he

theorem birthInvariant_with_points (l : List Point) : BirthInvariant (Grid.with_points l) := by
  intro e he
  have h : e ∈ l.foldl (fun cells point => insertCell cells point 0) [] := he
  rcases mem_foldl_insert0 l [] h with h' | h'
  · simp at h'
  · simp [h']

theorem birthInvariant_tick {g : Grid} (h : BirthInvariant g) : BirthInvariant g.tick := by
  intro e he
  have he' : e ∈ tickBirths g (tickSurvivors g) := he
  unfold tickBirths at he'
  rcases mem_foldl_birthStep g _ _ he' with h' | h'
  · unfold tickSurvivors at h'
    rcases mem_foldl_survStep g _ _ h' with h'' | h''
    · simp at h''
    · exact le_trans (h e h'') (by rw [tick_generation]; omega)
  · simp [h'.2, tick_generation]

theorem birthInvariant_add_point {g : Grid} (h : BirthInvariant g) (p : Point) :
    BirthInvariant (g.add_point p) := by
  intro e he
  rcases mem_orInsertCell he with h' | h'
  · exact h e h'
  · simp [h', Grid.add_point]

theorem birthInvariant_remove_point {g : Grid} (h : BirthInvariant g) (p : Point) :
    BirthInvariant (g.remove_point p) := by
  intro e he
  exact h e ((removeCell_sublist g.cells p).subset he)

theorem birthInvariant_foldl_add (draws : List Point) :
    ∀ (g : Grid), BirthInvariant g →
      BirthInvariant (draws.foldl (fun grid point => grid.add_point point) g) := by
  induction draws with
  | nil => intro g h; exact h
  | cons d rest ih =>
    intro g h
    rw [List.foldl_cons]
    exact ih _ (birthInvariant_add_point h d)

theorem birthInvariant_reachable {g : Grid} (h : Reachable g) : BirthInvariant g := by
  induction h with
  | empty => exact birthInvariant_empty
  | with_points points => exact birthInvariant_with_points points
  | random draws => exact birthInvariant_foldl_add draws Grid.empty birthInvariant_empty
  | tick _ ih => exact birthInvariant_tick ih
  | add_point p _ ih => exact birthInvariant_add_point ih p
  | remove_point p _ ih => exact birthInvariant_remove_point ih p

/-! ### The `random` construction -/

theorem generation_foldl_add (draws : List Point) :
    ∀ (g : Grid),
      (draws.foldl (fun grid point => grid.add_point point) g).generation = g.generation := by
  induction draws with
  | nil => intro g; rfl
  | cons d rest ih =>
    intro g
    rw [List.foldl_cons, ih]
    rfl

theorem length_foldl_add (draws : List Point) :
    ∀ (g : Grid),
      (draws.foldl (fun grid point => grid.add_point point) g).cells.length ≤
        g.cells.length + draws.length := by
  induction draws with
  | nil => intro g; simp
  | cons d rest ih =>
    intro g
    rw [List.foldl_cons]
    have h1 := ih (g.add_point d)
    have h2 : (g.add_point d).cells.length ≤ g.cells.length + 1 :=
      length_orInsertCell g.cells d g.generation
    simp only [List.length_cons]
    omega

theorem mem_foldl_add (draws : List Point) :
    ∀ (g : Grid) {e : Point × Nat},
      e ∈ (draws.foldl (fun grid point => grid.add_point point) g).cells →
        e ∈ g.cells ∨ (e.1 ∈ draws ∧ e.2 = g.generation) := by
  induction draws with
  | nil => intro g e h; exact Or.inl h
  | cons d rest ih =>
    intro g e h
    rw [List.foldl_cons] at h
    rcases ih _ h with h' | h'
    · rcases mem_orInsertCell h' with h'' | h''
      · exact Or.inl h''
      · right
        simp [h'']
    · right
      have hgen : (g.add_point d).generation = g.generation := rfl
      exact ⟨List.mem_cons_of_mem d h'.1, h'.2.trans hgen⟩

/-! ### The claims -/

/-- C1: for every (well-formed) grid, a cell alive in the pre-tick snapshot
is alive after one tick if and only if its pre-tick alive-neighbor count is
2 or 3, and a surviving cell keeps its original birth generation. -/
theorem spec_c1_survival (g : Grid) (hwf : g.WF) (p : Point) (birth : Nat)
    (h : getCell g.cells p = some birth) :
    getCell g.tick.cells p =
      if g.count_neighbors p = 2 ∨ g.count_neighbors p = 3 then some birth else none := by
  rw [getCell_tick g hwf p, h]
  exact if_congr (by omega) rfl rfl

/-- Witness for C1 on a 2×2 block, whose every cell has 3 neighbors. -/
theorem spec_c1_survival_witness :
    getCell (Grid.with_points [(⟨0, 0⟩ : Point), ⟨0, 1⟩, ⟨1, 0⟩, ⟨1, 1⟩]).tick.cells ⟨0, 0⟩ =
      if (Grid.with_points [(⟨0, 0⟩ : Point), ⟨0, 1⟩, ⟨1, 0⟩, ⟨1, 1⟩]).count_neighbors ⟨0, 0⟩ = 2 ∨
         (Grid.with_points [(⟨0, 0⟩ : Point), ⟨0, 1⟩, ⟨1, 0⟩, ⟨1, 1⟩]).count_neighbors ⟨0, 0⟩ = 3
      then some 0 else none :=
  spec_c1_survival _ (by decide) _ 0 (by decide)

/-- C2: for every (well-formed) grid, a point dead in the pre-tick snapshot
is alive after one tick if and only if it has exactly 3 alive neighbors in
the snapshot, and a newly born cell is stored with the post-increment
generation. -/
theorem spec_c2_birth (g : Grid) (hwf : g.WF) (p : Point)
    (h : getCell g.cells p = none) :
    getCell g.tick.cells p =
      (if g.count_neighbors p = 3 then some (g.generation + 1) else none) ∧
    g.tick.generation = g.generation + 1 := by
  refine ⟨?_, tick_generation g⟩
  rw [getCell_tick g hwf p, h]
  by_cases hc : g.count_neighbors p = 3
  · have hpos : 0 < (neighbors p).countP (fun q => (getCell g.cells q).isSome) := by
      rw [← count_neighbors_eq_countP, hc]
      omega
    obtain ⟨q, hq, hal⟩ := List.countP_pos_iff.mp hpos
    have hdc : p ∈ g.dead_candidates :=
      mem_dead_candidates_of_alive_neighbor h hq (by simpa using hal)
    simp [hdc, hc]
  · simp [hc]

/-- Witness for C2: the blinker {(0,1),(-1,0),(1,0)} gives birth at (0,0). -/
theorem spec_c2_birth_witness :
    getCell (Grid.with_points [(⟨0, 1⟩ : Point), ⟨-1, 0⟩, ⟨1, 0⟩]).tick.cells ⟨0, 0⟩ =
      (if (Grid.with_points [(⟨0, 1⟩ : Point), ⟨-1, 0⟩, ⟨1, 0⟩]).count_neighbors ⟨0, 0⟩ = 3
       then some 1 else none) ∧
    (Grid.with_points [(⟨0, 1⟩ : Point), ⟨-1, 0⟩, ⟨1, 0⟩]).tick.generation = 1 :=
  spec_c2_birth _ (by decide) _ (by decide)

/-- C3: tick is a total function (it is defined for every grid state), it
always increments the generation by exactly 1; a grid constructed at
generation 0 (by `with_points`, `empty` or `random`) has generation N after
N ticks; ticking the empty grid leaves the alive set empty while still
advancing the generation. -/
theorem spec_c3_generation (g : Grid) (n : Nat) (l : List Point) (draws : List Point) :
    g.tick.generation = g.generation + 1 ∧
    (Grid.tick^[n] (Grid.with_points l)).generation = n ∧
    (Grid.tick^[n] (Grid.random draws)).generation = n ∧
    (Grid.tick^[n] Grid.empty).generation = n ∧
    (Grid.tick^[n] Grid.empty).cells = [] := by
  refine ⟨tick_generation g, ?_, ?_, ?_, tickN_empty_cells n⟩
  · rw [tickN_generation, with_points_generation]
    omega
  · rw [tickN_generation]
    have h : (Grid.random draws).generation = 0 := generation_foldl_add draws Grid.empty
    omega
  · rw [tickN_generation]
    have h : Grid.empty.generation = 0 := rfl
    omega

/-- C4: every grid reachable from the constructors via tick, add_point and
remove_point satisfies the invariant that each alive cell's birth
generation is at most the current generation, and each of these operations
preserves the invariant. -/
theorem spec_c4_invariant (g g' : Grid) (h : Reachable g) (h' : BirthInvariant g')
    (p : Point) :
    BirthInvariant g ∧ BirthInvariant g'.tick ∧ BirthInvariant (g'.add_point p) ∧
    BirthInvariant (g'.remove_point p) :=
  ⟨birthInvariant_reachable h, birthInvariant_tick h', birthInvariant_add_point h' p,
   birthInvariant_remove_point h' p⟩

/-- Witness for C4 on concrete reachable grids. -/
theorem spec_c4_invariant_witness :
    BirthInvariant (Grid.with_points [(⟨0, 0⟩ : Point)]) ∧
    BirthInvariant Grid.empty.tick ∧
    BirthInvariant (Grid.empty.add_point ⟨0, 0⟩) ∧
    BirthInvariant (Grid.empty.remove_point ⟨0, 0⟩) :=
  spec_c4_invariant _ Grid.empty (Reachable.with_points _) birthInvariant_empty ⟨0, 0⟩

/-- C5: two grids constructed by `with_points` from the same set of points
have, after any equal number of ticks, the same generation counter and the
same birth generation (or absence) at every point — independent of the
input order and of the internal map order. -/
theorem spec_c5_determinism (l₁ l₂ : List Point) (n : Nat) (h : ∀ p, p ∈ l₁ ↔ p ∈ l₂) :
    GridEquiv (Grid.tick^[n] (Grid.with_points l₁)) (Grid.tick^[n] (Grid.with_points l₂)) := by
  apply tickN_congr (with_points_WF l₁) (with_points_WF l₂)
  constructor
  · rfl
  · intro p
    rw [getCell_with_points, getCell_with_points]
    simp only [h p]

/-- Witness for C5 with the same two points listed in either order. -/
theorem spec_c5_determinism_witness :
    GridEquiv (Grid.tick^[1] (Grid.with_points [(⟨0, 0⟩ : Point), ⟨1, 1⟩]))
      (Grid.tick^[1] (Grid.with_points [(⟨1, 1⟩ : Point), ⟨0, 0⟩])) :=
  spec_c5_determinism _ _ 1 (by intro p; constructor <;> (intro hp; simp at hp ⊢; tauto))

/-- C6: add_point is a no-op (the whole grid is unchanged, so the stored
birth generation is not refreshed) when the point is already alive, and
inserts the point stamped with the current generation when it is dead,
leaving the generation counter unchanged. -/
theorem spec_c6_add_point (g : Grid) (p : Point) :
    (∀ b, getCell g.cells p = some b → g.add_point p = g) ∧
    (getCell g.cells p = none →
      getCell (g.add_point p).cells p = some g.generation ∧
      (g.add_point p).generation = g.generation) := by
  constructor
  · intro b hb
    have hcells : orInsertCell g.cells p g.generation = g.cells := by
      unfold orInsertCell
      rw [hb]
    show { g with cells := orInsertCell g.cells p g.generation } = g
    rw [hcells]
  · intro hnone
    refine ⟨?_, rfl⟩
    show getCell (orInsertCell g.cells p g.generation) p = some g.generation
    unfold orInsertCell
    rw [hnone]
    exact getCell_append_of_absent hnone g.generation

/-- Witness for C6: re-adding an alive point is a no-op; adding to the
empty grid stamps generation 0. -/
theorem spec_c6_add_point_witness :
    (Grid.with_points [(⟨0, 0⟩ : Point)]).add_point ⟨0, 0⟩ = Grid.with_points [(⟨0, 0⟩ : Point)] ∧
    getCell (Grid.empty.add_point ⟨0, 0⟩).cells ⟨0, 0⟩ = some 0 :=
  ⟨(spec_c6_add_point _ _).1 0 (by decide), ((spec_c6_add_point _ _).2 (by decide)).1⟩

/-- C7: age_of_point returns the current generation minus the birth
generation when the point is alive and none when it is dead (the function
itself is non-mutating: it takes the grid and returns only an option). -/
theorem spec_c7_age (g : Grid) (p : Point) :
    (∀ birth, getCell g.cells p = some birth →
      g.age_of_point p = some (g.generation - birth)) ∧
    (getCell g.cells p = none → g.age_of_point p = none) := by
  constructor
  · intro birth hb
    unfold Grid.age_of_point
    rw [hb]
    rfl
  · intro hn
    unfold Grid.age_of_point
    rw [hn]
    rfl

/-- Witness for C7 on a live point and a dead point. -/
theorem spec_c7_age_witness :
    (Grid.with_points [(⟨2, 3⟩ : Point)]).age_of_point ⟨2, 3⟩ = some 0 ∧
    Grid.empty.age_of_point ⟨2, 3⟩ = none :=
  ⟨(spec_c7_age _ _).1 0 (by decide), (spec_c7_age _ _).2 (by decide)⟩

/-- C8: remove_point is a no-op on a dead point; after removing a point its
age is none; removing twice equals removing once (idempotence). -/
theorem spec_c8_remove_point (g : Grid) (p : Point) (hwf : g.WF) :
    (getCell g.cells p = none → g.remove_point p = g) ∧
    (g.remove_point p).age_of_point p = none ∧
    (g.remove_point p).remove_point p = g.remove_point p := by
  have hnone : getCell (g.remove_point p).cells p = none := getCell_removeCell_self hwf p
  refine ⟨?_, ?_, ?_⟩
  · intro h
    show { g with cells := removeCell g.cells p } = g
    rw [removeCell_of_absent h]
  · unfold Grid.age_of_point
    rw [hnone]
    rfl
  · show { g.remove_point p with cells := removeCell (g.remove_point p).cells p } =
      g.remove_point p
    rw [removeCell_of_absent hnone]

/-- Witness for C8: removing from a singleton grid and from the empty grid. -/
theorem spec_c8_remove_point_witness :
    ((Grid.with_points [(⟨0, 0⟩ : Point)]).remove_point ⟨0, 0⟩).age_of_point ⟨0, 0⟩ = none ∧
    Grid.empty.remove_point ⟨0, 0⟩ = Grid.empty :=
  ⟨(spec_c8_remove_point _ _ (by decide)).2.1,
   (spec_c8_remove_point Grid.empty ⟨0, 0⟩ (by decide)).1 (by decide)⟩

/-- C9: for a non-degenerate rectangle and any admissible sequence of
draws (the loop samples `desired_count` points inside the half-open
rectangle), `Grid::random` yields a grid at generation 0, with at most
0.8 times the rectangle's area of alive cells (stated as `count·10 ≤
area·8` to stay in the integers), every alive cell inside the rectangle
and stamped with birth generation 0. -/
theorem spec_c9_random (top_left bottom_right : Point) (draws : List Point)
    (hx : top_left.x < bottom_right.x) (hy : top_left.y < bottom_right.y)
    (hlen : (draws.length : Int) = desired_count top_left bottom_right)
    (hin : ∀ q ∈ draws, top_left.x ≤ q.x ∧ q.x < bottom_right.x ∧
      top_left.y ≤ q.y ∧ q.y < bottom_right.y) :
    (Grid.random draws).generation = 0 ∧
    ((Grid.random draws).cells.length : Int) * 10 ≤
      (bottom_right.x - top_left.x) * (bottom_right.y - top_left.y) * 8 ∧
    ∀ e ∈ (Grid.random draws).cells,
      (top_left.x ≤ e.1.x ∧ e.1.x < bottom_right.x ∧
       top_left.y ≤ e.1.y ∧ e.1.y < bottom_right.y) ∧ e.2 = 0 := by
  refine ⟨generation_foldl_add draws Grid.empty, ?_, ?_⟩
  · have hlen2 : (Grid.random draws).cells.length ≤ draws.length := by
      have h := length_foldl_add draws Grid.empty
      simpa [Grid.empty] using h
    have h1 : (0 : Int) ≤ bottom_right.x - top_left.x := by omega
    have h2 : (0 : Int) ≤ bottom_right.y - top_left.y := by omega
    have harea : (0 : Int) ≤ (bottom_right.x - top_left.x) * (bottom_right.y - top_left.y) * 8 :=
      mul_nonneg (mul_nonneg h1 h2) (by norm_num)
    have hdiv : desired_count top_left bottom_right =
        ((bottom_right.x - top_left.x) * (bottom_right.y - top_left.y) * 8) / 10 := by
      unfold desired_count
      exact Int.tdiv_eq_ediv harea (by norm_num)
    have hc : ((Grid.random draws).cells.length : Int) ≤ (draws.length : Int) := by
      exact_mod_cast hlen2
    rw [hdiv] at hlen
    generalize hA : (bottom_right.x - top_left.x) * (bottom_right.y - top_left.y) * 8 = A
      at hlen harea ⊢
    omega
  · intro e he
    have he' : e ∈ (draws.foldl (fun grid point => grid.add_point point) Grid.empty).cells := he
    rcases mem_foldl_add draws Grid.empty he' with h' | h'
    · simp [Grid.empty] at h'
    · exact ⟨hin e.1 h'.1, h'.2⟩

/-- Witness for C9 on the 2×2 square at the origin with 3 draws. -/
theorem spec_c9_random_witness :
    (Grid.random [(⟨0, 0⟩ : Point), ⟨1, 1⟩, ⟨0, 1⟩]).generation = 0 ∧
    ((Grid.random [(⟨0, 0⟩ : Point), ⟨1, 1⟩, ⟨0, 1⟩]).cells.length : Int) * 10 ≤ 32 := by
  have h := spec_c9_random ⟨0, 0⟩ ⟨2, 2⟩ [⟨0, 0⟩, ⟨1, 1⟩, ⟨0, 1⟩]
    (by decide) (by decide) (by decide) (by decide)
  refine ⟨h.1, ?_⟩
  have h2 := h.2.1
  norm_num at h2
  omega

/-- C10: for every grid satisfying the birth-generation invariant, the
`u64` subtraction inside age_of_point cannot underflow: the stored birth
generation is at most the current generation, so the computed age is the
exact mathematical difference. -/
theorem spec_c10_no_underflow (g : Grid) (h : BirthInvariant g) (p : Point) (birth : Nat)
    (hb : getCell g.cells p = some birth) :
    birth ≤ g.generation ∧
    g.age_of_point p = some (g.generation - birth) ∧
    ((g.generation - birth : Nat) : Int) = (g.generation : Int) - (birth : Int) := by
  have hle : birth ≤ g.generation := h (p, birth) (getCell_mem hb)
  refine ⟨hle, ?_, ?_⟩
  · unfold Grid.age_of_point
    rw [hb]
    rfl
  · omega

/-- Witness for C10 on a singleton grid at generation 0. -/
theorem spec_c10_no_underflow_witness :
    (0 : Nat) ≤ (Grid.with_points [(⟨1, 2⟩ : Point)]).generation ∧
    (Grid.with_points [(⟨1, 2⟩ : Point)]).age_of_point ⟨1, 2⟩ =
      some ((Grid.with_points [(⟨1, 2⟩ : Point)]).generation - 0) ∧
    (((Grid.with_points [(⟨1, 2⟩ : Point)]).generation - 0 : Nat) : Int) =
      ((Grid.with_points [(⟨1, 2⟩ : Point)]).generation : Int) - ((0 : Nat) : Int) :=
  spec_c10_no_underflow _ (by decide) _ 0 (by decide)
